import Mathlib

/-!
Verification of the esrp SRP-6a library: a shallow embedding of
`value/value.go`, `engine/engine.go` and `engine/standard.go` together with
proofs and refutations of the specified properties.

Conventions of the embedding:
* Go byte slices are `List Nat` (each element is a byte, i.e. `< 256`,
  guaranteed by the Go type and carried as a hypothesis where needed).
* Go strings are `List Char`.
* `math/big.Int` values are `Int`; the `Value.int` field is a `Nat` because
  `value.New` only ever sets it via `SetBytes`, which is non-negative.
-/

/-- One hex character to its value, as Go's `encoding/hex.fromHexChar`:
digits `0`-`9`, lowercase `a`-`f` and uppercase `A`-`F` are accepted,
anything else is an error (`none`). Guards are phrased on code points
(48-57, 97-102, 65-70). -/
def hexCharVal (c : Char) : Option Nat :=
  if 48 ≤ c.toNat ∧ c.toNat ≤ 57 then some (c.toNat - 48)
  else if 97 ≤ c.toNat ∧ c.toNat ≤ 102 then some (c.toNat - 87)
  else if 65 ≤ c.toNat ∧ c.toNat ≤ 70 then some (c.toNat - 55)
  else none

/-- The lowercase hex digit for a value `< 16`, as produced by Go's
`fmt.Sprintf("%x", ...)` encoding of bytes. -/
def hexDigit : Nat → Char
  | 0 => '0' | 1 => '1' | 2 => '2' | 3 => '3' | 4 => '4'
  | 5 => '5' | 6 => '6' | 7 => '7' | 8 => '8' | 9 => '9'
  | 10 => 'a' | 11 => 'b' | 12 => 'c' | 13 => 'd' | 14 => 'e'
  | 15 => 'f' | _ => '0'

/-- Lowercase hex encoding of a byte sequence: two digits per byte,
high nibble first — the behaviour of `fmt.Sprintf("%x", bytes)`. -/
def encodeHexLower : List Nat → List Char
  | [] => []
  | b :: bs => hexDigit (b / 16) :: hexDigit (b % 16) :: encodeHexLower bs

/-- Go's `encoding/hex.DecodeString`: consumes characters two at a time
(high nibble, low nibble); an odd-length input or any non-hex character is
an error (`none`). -/
def decodeHex : List Char → Option (List Nat)
  | [] => some []
  | [_] => none
  | c1 :: c2 :: rest =>
    match hexCharVal c1, hexCharVal c2, decodeHex rest with
    | some h, some l, some bs => some ((16 * h + l) :: bs)
    | _, _, _ => none

/-- Big-endian unsigned interpretation of a byte sequence, as Go's
`big.Int.SetBytes`. -/
def beNat (bs : List Nat) : Nat :=
  bs.foldl (fun acc b => acc * 256 + b) 0

/-- Fuel-indexed minimal big-endian byte encoding of a natural number
(`big.Int.Bytes` of a non-negative integer). The fuel dominates the
recursion depth; `natBytes` supplies `n` itself as fuel. -/
def natBytesAux : Nat → Nat → List Nat
  | 0, _ => []
  | fuel + 1, n =>
    if n = 0 then [] else natBytesAux fuel (n / 256) ++ [n % 256]

/-- Minimal big-endian byte encoding of a natural number: no leading zero
byte, and `0` encodes to the empty sequence (`big.Int.Bytes`). -/
def natBytes (n : Nat) : List Nat :=
  natBytesAux n n

/-- The `Value` struct of `value/value.go`: one SRP quantity held as a raw
byte sequence, a hex string and an arbitrary-precision integer. The `int`
field is a `Nat` because `New` only ever sets it with `SetBytes`, which is
non-negative. -/
structure Value where
  bytes : List Nat
  hex : List Char
  int : Nat
deriving DecidableEq, Repr

/-- The dynamic `interface{}` argument of `value.New`: exactly one of a hex
string, a byte slice, or a `*big.Int`. -/
inductive NewArg where
  | ofString (s : List Char)
  | ofBytes (b : List Nat)
  | ofInt (i : Int)

/-- Outcome of `value.New`: either a constructed `Value`, or `fatal`,
modelling `log.Fatal(err)` — the process terminates and nothing is returned
to the caller (the Go signature `func New(arg interface{}) (value Value)`
has no error result). -/
inductive NewResult where
  | ok (val : Value)
  | fatal
deriving DecidableEq, Repr

/-- `value.New` (value/value.go lines 30-49). A string argument is stored in
the `hex` field verbatim; a byte slice is stored as `fmt.Sprintf("%x", v)`
(lowercase); a `*big.Int` as `%x` of `v.Bytes()` (its absolute-value
minimal big-endian encoding, lowercase). The hex field is then decoded —
`log.Fatal` on failure — into `bytes`, and `int` is `SetBytes(bytes)`. -/
def Value.New (arg : NewArg) : NewResult :=
  let hx : List Char :=
    match arg with
    | NewArg.ofString s => s
    | NewArg.ofBytes b => encodeHexLower b
    | NewArg.ofInt i => encodeHexLower (natBytes i.natAbs)
  match decodeHex hx with
  | some bs => NewResult.ok { bytes := bs, hex := hx, int := beNat bs }
  | none => NewResult.fatal

/-- The `Value` produced by `value.New` on a `*big.Int` argument: the decode
of the `%x` encoding always succeeds (see `Value.New_ofInt`), so this
construction is total. `big.Int.Bytes` gives the absolute value, hence
`natAbs`. -/
def Value.ofBigInt (i : Int) : Value :=
  { bytes := natBytes i.natAbs
    hex := encodeHexLower (natBytes i.natAbs)
    int := beNat (natBytes i.natAbs) }

/-- Modelled from the spec: the `crypto.Crypto` capability set (its Go
definition is not among the sources; only `engine.go` calls it). `H`
digests the concatenation of its arguments' bytes, `PasswordHash` derives
the private key from salt and password, `KeyedHash` is the MAC. The engine
treats all three as opaque. -/
structure Crypto where
  H : List Value → Value
  PasswordHash : Value → List Char → Value
  KeyedHash : Value → Value → Value

/-- Modelled from the spec: the `group.Group` pair (N, G) of Values (its Go
definition is not among the sources; the spec calls it a near-trivial
immutable pair with no validation). Named `SrpGroup` here because `Group`
is taken by Mathlib. -/
structure SrpGroup where
  N : Value
  G : Value

/-- The `Engine` struct of `engine/engine.go`: a crypto engine, N, G and the
multiplier k. Note there is no "computed" flag field. -/
structure Engine where
  crypto : Crypto
  N : Value
  G : Value
  k : Value

/-- `engine.New` (engine.go lines 193-200): no validation of the group at
all; k is precomputed as `crypto.H(N, G)`. -/
def Engine.New (crypto : Crypto) (group : SrpGroup) : Engine :=
  { crypto := crypto, N := group.N, G := group.G
    k := crypto.H [group.N, group.G] }

/-- `Engine.K` (engine.go lines 209-215): recomputes `H(N, G)` when the
cached k's hex encoding is the empty string, otherwise returns the cache. -/
def Engine.K (e : Engine) : Value :=
  if e.k.hex = [] then e.crypto.H [e.N, e.G] else e.k

/-- Go's `big.Int.Exp(x, y, m)` for non-negative `x`, `y`: plain `x^y` when
the modulus is zero, otherwise `x^y mod m`. -/
def expMod (x y m : Nat) : Nat :=
  if m = 0 then x ^ y else x ^ y % m

/-- `Engine.modExp` (engine.go lines 344-346):
`v.New(new(big.Int).Exp(a.Int(), b.Int(), e.N.Int()))`. The wrapping
`value.New` on a `*big.Int` is total (`Value.New_ofInt`). -/
def Engine.modExp (e : Engine) (a b : Value) : Value :=
  Value.ofBigInt (Int.ofNat (expMod a.int b.int e.N.int))

/-- `Engine.CalcV` (engine.go line 226): `v = g^x`. -/
def Engine.CalcV (e : Engine) (x : Value) : Value :=
  e.modExp e.G x

/-- `Engine.CalcA` (engine.go line 241): `A = g^a`. -/
def Engine.CalcA (e : Engine) (a : Value) : Value :=
  e.modExp e.G a

/-- `Engine.CalcB` (engine.go lines 258-262):
`B = (k*v + g^b mod N) mod N` via `big.Int.Mod`. All operands are
non-negative, so Euclidean `Mod` is `Nat` `%` (Go panics when N = 0; no
theorem uses this definition with a zero modulus). -/
def Engine.CalcB (e : Engine) (b val : Value) : Value :=
  Value.ofBigInt (Int.ofNat ((e.k.int * val.int + (e.modExp e.G b).int) % e.N.int))

/-- `Engine.CalcU` (engine.go lines 275-277): `u = H(A, B)`, the raw digest
with no reduction mod N. -/
def Engine.CalcU (e : Engine) (aa bb : Value) : Value :=
  e.crypto.H [aa, bb]

/-- `Engine.CalcClientS` (engine.go lines 291-297):
`mul = k * (g^x mod N)`, `left = B - mul` (a `big.Int`, possibly negative),
`right = a + u*x`, result `modExp(v.New(left), v.New(right))`. Passing
`left` through `value.New` applies `big.Int.Bytes`, i.e. the absolute
value: the base actually exponentiated is `|B - k*(g^x mod N)|`. -/
def Engine.CalcClientS (e : Engine) (bb a x u : Value) : Value :=
  e.modExp
    (Value.ofBigInt ((bb.int : Int) - (e.k.int : Int) * ((e.modExp e.G x).int : Int)))
    (Value.ofBigInt (Int.ofNat (a.int + u.int * x.int)))

/-- `Engine.CalcServerS` (engine.go lines 311-314):
`S = modExp(v.New(A * (v^u mod N)), b)`. -/
def Engine.CalcServerS (e : Engine) (aa b val u : Value) : Value :=
  e.modExp (Value.ofBigInt (Int.ofNat (aa.int * (e.modExp val u).int))) b

/-- `Engine.CalcK` (engine.go line 329): `K = H(S)`, the raw digest. -/
def Engine.CalcK (e : Engine) (ss : Value) : Value :=
  e.crypto.H [ss]

/-- `Standard.CalcX` (engine/standard.go line 28):
`crypto.PasswordHash(v.New(salt), password)`; the salt string goes through
`value.New` and can therefore hit `log.Fatal`. -/
def Standard.CalcX (e : Engine) (password salt : List Char) : NewResult :=
  match Value.New (NewArg.ofString salt) with
  | NewResult.ok s => NewResult.ok (e.crypto.PasswordHash s password)
  | NewResult.fatal => NewResult.fatal

/-- `Standard.CalcM` (engine/standard.go lines 45-51): ordinary (non-modular)
integer sum `A + s + B`, re-encoded through `value.New`, then
`KeyedHash(K, sum)`. The `ss` and `username` parameters are unused. -/
def Standard.CalcM (e : Engine) (kk aa bb _ss salt : Value) (_username : List Char) : Value :=
  e.crypto.KeyedHash kk (Value.ofBigInt (Int.ofNat (aa.int + salt.int + bb.int)))

/-- `Standard.CalcM2` (engine/standard.go lines 64-68): same integer-sum
convention applied to (A, M). -/
def Standard.CalcM2 (e : Engine) (kk aa mm _ss : Value) : Value :=
  e.crypto.KeyedHash kk (Value.ofBigInt (Int.ofNat (aa.int + mm.int)))

/-- Modelled from the spec: the client premaster secret with the base
`B - k*(g^x mod N)` reduced into `[0, N)` by true mathematical modulo
(`Int` `%` is `Int.emod`, non-negative for a positive modulus) before
exponentiation — the formula the spec mandates for `CalcClientS`. -/
def clientSTrueMod (e : Engine) (bb a x u : Value) : Nat :=
  ((((bb.int : Int) - (e.k.int : Int) * ((e.modExp e.G x).int : Int)) % (e.N.int : Int)).toNat
      ^ (a.int + u.int * x.int)) % e.N.int

/-- A legal crypto instance whose digest is the constant 2 (the engine
accepts any `Crypto`; a constant hash makes the arithmetic checkable). -/
def crHashTwo : Crypto :=
  { H := fun _ => Value.ofBigInt 2
    PasswordHash := fun _ _ => Value.ofBigInt 1
    KeyedHash := fun _ m => m }

/-- A crypto instance whose digest is the constant 9 (larger than the test
modulus 7). -/
def crHashNine : Crypto :=
  { H := fun _ => Value.ofBigInt 9
    PasswordHash := fun _ _ => Value.ofBigInt 1
    KeyedHash := fun _ m => m }

/-- A crypto instance whose digest is the constant 5. -/
def crHashFive : Crypto :=
  { H := fun _ => Value.ofBigInt 5
    PasswordHash := fun _ _ => Value.ofBigInt 1
    KeyedHash := fun _ m => m }

/-- The valid small group N = 7 (a safe prime, 7 = 2*3 + 1), G = 3 (a
primitive root mod 7). -/
def grpSeven : SrpGroup :=
  { N := Value.ofBigInt 7, G := Value.ofBigInt 3 }

/-- The degenerate group N = 0 of claim C8. -/
def grpZero : SrpGroup :=
  { N := Value.ofBigInt 0, G := Value.ofBigInt 2 }

/-- Engine over the N = 7 group with the constant-2 hash: k = H(N, G) = 2. -/
def eSeven : Engine :=
  Engine.New crHashTwo grpSeven

/-- Engine over the N = 7 group with the constant-9 hash: k = H(N, G) = 9. -/
def eNine : Engine :=
  Engine.New crHashNine grpSeven

/-- An `Engine` whose cached k is the zero Value (empty byte/hex encoding)
while its crypto digests to the non-empty constant 5: the struct type
admits it, and it separates "cached value exists" from "hex is empty". -/
def eEmptyCachedK : Engine :=
  { crypto := crHashFive, N := Value.ofBigInt 7, G := Value.ofBigInt 3
    k := Value.ofBigInt 0 }

/-- A sample constructed Value: `value.New("07")`. -/
def vSample : Value :=
  { bytes := [7], hex := ['0', '7'], int := 7 }

theorem natBytesAux_zero (fuel : Nat) : natBytesAux fuel 0 = [] := by
  cases fuel <;> simp [natBytesAux]

theorem beNat_append_single (l : List Nat) (b : Nat) :
    beNat (l ++ [b]) = beNat l * 256 + b := by
  simp [beNat, List.foldl_append]

theorem beNat_natBytesAux :
    ∀ fuel n, n ≤ fuel → beNat (natBytesAux fuel n) = n := by
  intro fuel
  induction fuel with
  | zero =>
    intro n hn
    interval_cases n
    simp [natBytesAux, beNat]
  | succ fuel ih =>
    intro n hn
    by_cases h0 : n = 0
    · subst h0; simp [natBytesAux, beNat]
    · have hdiv : n / 256 ≤ fuel := by
        have : n / 256 < n := Nat.div_lt_self (Nat.pos_of_ne_zero h0) (by omega)
        omega
      simp only [natBytesAux, if_neg h0]
      rw [beNat_append_single, ih _ hdiv]
      omega

theorem beNat_natBytes (n : Nat) : beNat (natBytes n) = n :=
  beNat_natBytesAux n n (Nat.le_refl n)

theorem natBytesAux_lt256 :
    ∀ fuel n b, b ∈ natBytesAux fuel n → b < 256 := by
  intro fuel
  induction fuel with
  | zero => intro n b hb; simp [natBytesAux] at hb
  | succ fuel ih =>
    intro n b hb
    by_cases h0 : n = 0
    · subst h0; simp [natBytesAux] at hb
    · simp only [natBytesAux, if_neg h0, List.mem_append, List.mem_singleton] at hb
      rcases hb with hb | hb
      · exact ih _ _ hb
      · subst hb; omega

theorem natBytes_lt256 (n b : Nat) (hb : b ∈ natBytes n) : b < 256 :=
  natBytesAux_lt256 n n b hb

theorem natBytesAux_eq_nil (fuel n : Nat) (hle : n ≤ fuel)
    (h : natBytesAux fuel n = []) : n = 0 := by
  have := beNat_natBytesAux fuel n hle
  rw [h] at this
  simpa [beNat] using this.symm

/-- The leading byte of a minimal big-endian encoding is never zero (read
through `Option.getD` so that the empty encoding of `0` is covered too). -/
theorem natBytesAux_head :
    ∀ fuel n, n ≤ fuel → ((natBytesAux fuel n).head?.getD 1) ≠ 0 := by
  intro fuel
  induction fuel with
  | zero =>
    intro n hn
    interval_cases n
    simp [natBytesAux]
  | succ fuel ih =>
    intro n hn
    by_cases h0 : n = 0
    · subst h0; simp [natBytesAux]
    · have hdiv : n / 256 ≤ fuel := by
        have : n / 256 < n := Nat.div_lt_self (Nat.pos_of_ne_zero h0) (by omega)
        omega
      simp only [natBytesAux, if_neg h0]
      by_cases hq : n / 256 = 0
      · have hsmall : n < 256 := by
          have := Nat.div_eq_zero_iff (by omega : 0 < 256) |>.mp hq
          omega
        rw [hq, natBytesAux_zero]
        simp only [List.nil_append, List.head?_cons, Option.getD_some]
        omega
      · obtain ⟨c, cs, hcons⟩ :=
          List.exists_cons_of_ne_nil
            (fun hnil => hq (natBytesAux_eq_nil fuel (n / 256) hdiv hnil))
        have := ih (n / 256) hdiv
        rw [hcons] at this ⊢
        simpa using this

theorem natBytes_head (n : Nat) : ((natBytes n).head?.getD 1) ≠ 0 :=
  natBytesAux_head n n (Nat.le_refl n)

theorem hexCharVal_hexDigit (n : Nat) (h : n < 16) :
    hexCharVal (hexDigit n) = some n := by
  interval_cases n <;> decide

/-- Decoding the lowercase encoding of genuine bytes recovers them. -/
theorem decodeHex_encodeHexLower :
    ∀ bs : List Nat, (∀ b ∈ bs, b < 256) → decodeHex (encodeHexLower bs) = some bs := by
  intro bs
  induction bs with
  | nil => intro _; rfl
  | cons b bs ih =>
    intro hlt
    have hb : b < 256 := hlt b (List.mem_cons_self b bs)
    have hhi : b / 16 < 16 := by omega
    have hlo : b % 16 < 16 := by omega
    have hrest : decodeHex (encodeHexLower bs) = some bs :=
      ih (fun x hx => hlt x (List.mem_cons_of_mem b hx))
    simp only [encodeHexLower, decodeHex, hexCharVal_hexDigit _ hhi,
      hexCharVal_hexDigit _ hlo, hrest]
    have : 16 * (b / 16) + b % 16 = b := by omega
    rw [this]

theorem Value.New_ofInt (i : Int) :
    Value.New (NewArg.ofInt i) = NewResult.ok (Value.ofBigInt i) := by
  have hdec : decodeHex (encodeHexLower (natBytes i.natAbs)) = some (natBytes i.natAbs) :=
    decodeHex_encodeHexLower _ (fun b hb => natBytes_lt256 _ b hb)
  simp [Value.New, hdec, Value.ofBigInt]

theorem Value.ofBigInt_int (i : Int) : (Value.ofBigInt i).int = i.natAbs := by
  simp [Value.ofBigInt, beNat_natBytes]

theorem Engine.modExp_int (e : Engine) (a b : Value) :
    (e.modExp a b).int = expMod a.int b.int e.N.int := by
  simp [Engine.modExp, Value.ofBigInt_int]

theorem expMod_lt (x y m : Nat) (h : 0 < m) : expMod x y m < m := by
  simp only [expMod, if_neg (Nat.pos_iff_ne_zero.mp h)]
  exact Nat.mod_lt _ h

/-- Odd length or any non-hex character makes `DecodeString` fail. -/
theorem decodeHex_none_of_malformed :
    ∀ s : List Char, (s.length % 2 = 1 ∨ ∃ c ∈ s, hexCharVal c = none) →
      decodeHex s = none := by
  have main : ∀ n (s : List Char), s.length ≤ n →
      (s.length % 2 = 1 ∨ ∃ c ∈ s, hexCharVal c = none) → decodeHex s = none := by
    intro n
    induction n with
    | zero =>
      intro s hlen hmal
      have : s = [] := List.eq_nil_of_length_eq_zero (Nat.le_zero.mp hlen)
      subst this
      rcases hmal with h | ⟨c, hc, _⟩
      · simp at h
      · simp at hc
    | succ n ih =>
      intro s hlen hmal
      match s with
      | [] =>
        rcases hmal with h | ⟨c, hc, _⟩
        · simp at h
        · simp at hc
      | [c] => rfl
      | c1 :: c2 :: rest =>
        rcases hmal with hodd | ⟨c, hc, hcv⟩
        · have hro : rest.length % 2 = 1 := by
            simp only [List.length_cons] at hodd
            omega
          have hrest : decodeHex rest = none := by
            apply ih rest _ (Or.inl hro)
            simp only [List.length_cons] at hlen
            omega
          simp only [decodeHex, hrest]
          cases hexCharVal c1 <;> cases hexCharVal c2 <;> rfl
        · rcases List.mem_cons.mp hc with h1 | hc
          · subst h1
            simp only [decodeHex, hcv]
          · rcases List.mem_cons.mp hc with h2 | hrestmem
            · subst h2
              simp only [decodeHex, hcv]
              cases hexCharVal c1 <;> rfl
            · have hrest : decodeHex rest = none := by
                apply ih rest _ (Or.inr ⟨c, hrestmem, hcv⟩)
                simp only [List.length_cons] at hlen
                omega
              simp only [decodeHex, hrest]
              cases hexCharVal c1 <;> cases hexCharVal c2 <;> rfl
  intro s
  exact main s.length s (Nat.le_refl _)

/-- Claim C1 (code bug): protocol soundness fails on the code. Over the
valid group N = 7 (safe prime), G = 3 (primitive root), with a legal crypto
instance whose digest is the constant 2 and whose password hash is the
constant 1, the full protocol chain x = CalcX(p, s) = 1, v = CalcV(x) = 3,
A = CalcA(1) = 3, B = CalcB(1, v) = 2, u = CalcU(A, B) = 2 yields client
premaster secret 1 but server premaster secret 6: `CalcClientS` feeds
`B - k*(g^x mod N) = 2 - 6 = -4` through `value.New`, whose
`big.Int.Bytes` drops the sign, so the client exponentiates 4 = |-4|
instead of (-4) mod 7 = 3 and the two sides disagree. -/
theorem c1_client_server_secrets_differ :
    Standard.CalcX eSeven ['p'] [] = NewResult.ok (Value.ofBigInt 1) ∧
    Engine.CalcV eSeven (Value.ofBigInt 1) = Value.ofBigInt 3 ∧
    Engine.CalcA eSeven (Value.ofBigInt 1) = Value.ofBigInt 3 ∧
    Engine.CalcB eSeven (Value.ofBigInt 1) (Value.ofBigInt 3) = Value.ofBigInt 2 ∧
    Engine.CalcU eSeven (Value.ofBigInt 3) (Value.ofBigInt 2) = Value.ofBigInt 2 ∧
    (Engine.CalcClientS eSeven (Value.ofBigInt 2) (Value.ofBigInt 1)
        (Value.ofBigInt 1) (Value.ofBigInt 2)).int = 1 ∧
    (Engine.CalcServerS eSeven (Value.ofBigInt 3) (Value.ofBigInt 1)
        (Value.ofBigInt 3) (Value.ofBigInt 2)).int = 6 ∧
    Engine.CalcClientS eSeven (Value.ofBigInt 2) (Value.ofBigInt 1)
        (Value.ofBigInt 1) (Value.ofBigInt 2) ≠
      Engine.CalcServerS eSeven (Value.ofBigInt 3) (Value.ofBigInt 1)
        (Value.ofBigInt 3) (Value.ofBigInt 2) := by
  decide

/-- Claim C2 (code bug): `CalcClientS` does not reduce the possibly-negative
base by true mathematical modulo — it takes its absolute value. At N = 7,
k = 2, B = 2, a = 1, x = 1, u = 2 the base is 2 - 2*3 = -4; true modulo
gives 3 and the spec result 3^3 mod 7 = 6, but the code turns the base into
|-4| = 4 (via `big.Int.Bytes` inside `value.New`) and returns
4^3 mod 7 = 1. -/
theorem c2_client_base_absolute_value :
    (Value.ofBigInt ((2 : Int) - 2 * 3)).int = 4 ∧
    (((2 : Int) - 2 * 3) % (7 : Int)).toNat = 3 ∧
    (Engine.CalcClientS eSeven (Value.ofBigInt 2) (Value.ofBigInt 1)
        (Value.ofBigInt 1) (Value.ofBigInt 2)).int = 1 ∧
    clientSTrueMod eSeven (Value.ofBigInt 2) (Value.ofBigInt 1)
        (Value.ofBigInt 1) (Value.ofBigInt 2) = 6 ∧
    (Engine.CalcClientS eSeven (Value.ofBigInt 2) (Value.ofBigInt 1)
        (Value.ofBigInt 1) (Value.ofBigInt 2)).int ≠
      clientSTrueMod eSeven (Value.ofBigInt 2) (Value.ofBigInt 1)
        (Value.ofBigInt 1) (Value.ofBigInt 2) := by
  decide

/-- Claim C3, counterexample: the hash-valued operations are not reduced
into [0, N). Over the valid group N = 7, G = 3 with a crypto instance whose
digest is the constant 9, `K()`, `CalcU` and `CalcK` all return 9 ≥ 7. -/
theorem c3_range_counterexample :
    eNine.N.int = 7 ∧
    (Engine.K eNine).int = 9 ∧
    (Engine.CalcU eNine (Value.ofBigInt 3) (Value.ofBigInt 2)).int = 9 ∧
    (Engine.CalcK eNine (Value.ofBigInt 3)).int = 9 ∧
    ¬ (Engine.K eNine).int < eNine.N.int := by
  decide

/-- Claim C3, amended: only the modular-arithmetic operations — CalcV,
CalcA, CalcB, CalcClientS, CalcServerS — return values reduced into
[0, N) (for a positive modulus); K, CalcU and CalcK return the raw digest
unreduced. -/
theorem c3_range_amended (e : Engine)
    (x a b bv cb ca cx cu sa sb sv su : Value) (hN : 0 < e.N.int) :
    (e.CalcV x).int < e.N.int ∧
    (e.CalcA a).int < e.N.int ∧
    (e.CalcB b bv).int < e.N.int ∧
    (e.CalcClientS cb ca cx cu).int < e.N.int ∧
    (e.CalcServerS sa sb sv su).int < e.N.int := by
  refine ⟨?_, ?_, ?_, ?_, ?_⟩
  · rw [Engine.CalcV, Engine.modExp_int]
    exact expMod_lt _ _ _ hN
  · rw [Engine.CalcA, Engine.modExp_int]
    exact expMod_lt _ _ _ hN
  · rw [Engine.CalcB, Value.ofBigInt_int]
    exact Nat.mod_lt _ hN
  · rw [Engine.CalcClientS, Engine.modExp_int]
    exact expMod_lt _ _ _ hN
  · rw [Engine.CalcServerS, Engine.modExp_int]
    exact expMod_lt _ _ _ hN

/-- Claim C3, witness for the amended range theorem at the N = 7 engine. -/
theorem c3_range_witness :
    (eSeven.CalcV (Value.ofBigInt 1)).int < eSeven.N.int ∧
    (eSeven.CalcA (Value.ofBigInt 2)).int < eSeven.N.int ∧
    (eSeven.CalcB (Value.ofBigInt 3) (Value.ofBigInt 4)).int < eSeven.N.int ∧
    (eSeven.CalcClientS (Value.ofBigInt 2) (Value.ofBigInt 1) (Value.ofBigInt 1)
        (Value.ofBigInt 2)).int < eSeven.N.int ∧
    (eSeven.CalcServerS (Value.ofBigInt 3) (Value.ofBigInt 1) (Value.ofBigInt 3)
        (Value.ofBigInt 2)).int < eSeven.N.int :=
  c3_range_amended eSeven (Value.ofBigInt 1) (Value.ofBigInt 2) (Value.ofBigInt 3)
    (Value.ofBigInt 4) (Value.ofBigInt 2) (Value.ofBigInt 1) (Value.ofBigInt 1)
    (Value.ofBigInt 2) (Value.ofBigInt 3) (Value.ofBigInt 1) (Value.ofBigInt 3)
    (Value.ofBigInt 2) (by decide)

/-- Claim C4, counterexample: a Value constructed from the uppercase (but
valid) hex string "AB" stores "AB" verbatim, while the lowercase canonical
encoding of its byte sequence [0xAB] is "ab" — the stored hex is not the
lowercase encoding of the stored bytes. -/
theorem c4_hex_counterexample :
    Value.New (NewArg.ofString ['A', 'B']) =
      NewResult.ok { bytes := [171], hex := ['A', 'B'], int := 171 } ∧
    encodeHexLower [171] = ['a', 'b'] ∧
    (['A', 'B'] : List Char) ≠ ['a', 'b'] := by
  decide

/-- Claim C4, amended: Values constructed from a byte slice or from an
integer do store the lowercase canonical encoding of their bytes, but a
Value constructed from a hex string stores the caller's string verbatim
(so an uppercase input is reported back uppercase). -/
theorem c4_hex_amended (bs : List Nat) (i : Int) (s : List Char) (val : Value)
    (hbs : ∀ b ∈ bs, b < 256) :
    Value.New (NewArg.ofBytes bs) =
      NewResult.ok { bytes := bs, hex := encodeHexLower bs, int := beNat bs } ∧
    Value.New (NewArg.ofInt i) = NewResult.ok (Value.ofBigInt i) ∧
    (Value.ofBigInt i).hex = encodeHexLower (Value.ofBigInt i).bytes ∧
    (Value.New (NewArg.ofString s) = NewResult.ok val → val.hex = s) := by
  refine ⟨?_, Value.New_ofInt i, rfl, ?_⟩
  · simp [Value.New, decodeHex_encodeHexLower bs hbs]
  · intro h
    simp only [Value.New] at h
    cases hdec : decodeHex s with
    | none => rw [hdec] at h; cases h
    | some bs2 =>
      rw [hdec] at h
      cases h
      rfl

/-- Claim C4, witness for the amended theorem at bytes [0xAB], integer 5
and the hex string "07". -/
theorem c4_hex_witness :
    Value.New (NewArg.ofBytes [171]) =
      NewResult.ok { bytes := [171], hex := encodeHexLower [171], int := beNat [171] } ∧
    Value.New (NewArg.ofInt 5) = NewResult.ok (Value.ofBigInt 5) ∧
    (Value.ofBigInt 5).hex = encodeHexLower (Value.ofBigInt 5).bytes ∧
    (Value.New (NewArg.ofString ['0', '7']) = NewResult.ok vSample →
      vSample.hex = ['0', '7']) :=
  c4_hex_amended [171] 5 ['0', '7'] vSample (by decide)

/-- Claim C5: for every successful construction, the integer view is
non-negative and equals the unsigned big-endian interpretation of the
stored byte sequence (`value.New` always sets `int` via `SetBytes` on the
decoded bytes). -/
theorem c5_int_bytes_sync (arg : NewArg) (val : Value)
    (h : Value.New arg = NewResult.ok val) :
    0 ≤ (val.int : Int) ∧ val.int = beNat val.bytes := by
  refine ⟨Int.ofNat_nonneg _, ?_⟩
  simp only [Value.New] at h
  split at h
  · injection h with h2
    subst h2
    rfl
  · exact NewResult.noConfusion h

/-- Claim C5, witness at the hex string "07". -/
theorem c5_int_bytes_witness :
    0 ≤ (vSample.int : Int) ∧ vSample.int = beNat vSample.bytes :=
  c5_int_bytes_sync (NewArg.ofString ['0', '7']) vSample (by decide)

/-- Claim C6: `Standard.CalcM` hashes `KeyedHash(K, V)` where V is the
re-encoding of the ordinary (non-modular) integer sum A + s + B; the
encoding is the minimal big-endian byte form of the sum (it decodes back to
the sum and carries no leading zero byte), and the result is independent of
the premaster secret S and the username. -/
theorem c6_calcM_integer_sum (e : Engine) (kk aa bb ss ss2 salt : Value)
    (un un2 : List Char) :
    Standard.CalcM e kk aa bb ss salt un =
      e.crypto.KeyedHash kk (Value.ofBigInt (Int.ofNat (aa.int + salt.int + bb.int))) ∧
    (Value.ofBigInt (Int.ofNat (aa.int + salt.int + bb.int))).bytes =
      natBytes (aa.int + salt.int + bb.int) ∧
    beNat (Value.ofBigInt (Int.ofNat (aa.int + salt.int + bb.int))).bytes =
      aa.int + salt.int + bb.int ∧
    ((Value.ofBigInt (Int.ofNat (aa.int + salt.int + bb.int))).bytes.head?.getD 1) ≠ 0 ∧
    Standard.CalcM e kk aa bb ss salt un = Standard.CalcM e kk aa bb ss2 salt un2 := by
  refine ⟨rfl, rfl, ?_, ?_, rfl⟩
  · show beNat (natBytes (aa.int + salt.int + bb.int)) = aa.int + salt.int + bb.int
    exact beNat_natBytes _
  · show ((natBytes (aa.int + salt.int + bb.int)).head?.getD 1) ≠ 0
    exact natBytes_head _

/-- Claim C6, witness at K = 9, A = 3, B = 2, S = 5, s = 4,
username "u" (S and username varied to 6 and "w"). -/
theorem c6_calcM_witness :
    Standard.CalcM eSeven (Value.ofBigInt 9) (Value.ofBigInt 3) (Value.ofBigInt 2)
        (Value.ofBigInt 5) (Value.ofBigInt 4) ['u'] =
      eSeven.crypto.KeyedHash (Value.ofBigInt 9)
        (Value.ofBigInt (Int.ofNat ((Value.ofBigInt 3).int + (Value.ofBigInt 4).int +
          (Value.ofBigInt 2).int))) ∧
    (Value.ofBigInt (Int.ofNat ((Value.ofBigInt 3).int + (Value.ofBigInt 4).int +
        (Value.ofBigInt 2).int))).bytes =
      natBytes ((Value.ofBigInt 3).int + (Value.ofBigInt 4).int + (Value.ofBigInt 2).int) ∧
    beNat (Value.ofBigInt (Int.ofNat ((Value.ofBigInt 3).int + (Value.ofBigInt 4).int +
        (Value.ofBigInt 2).int))).bytes =
      (Value.ofBigInt 3).int + (Value.ofBigInt 4).int + (Value.ofBigInt 2).int ∧
    ((Value.ofBigInt (Int.ofNat ((Value.ofBigInt 3).int + (Value.ofBigInt 4).int +
        (Value.ofBigInt 2).int))).bytes.head?.getD 1) ≠ 0 ∧
    Standard.CalcM eSeven (Value.ofBigInt 9) (Value.ofBigInt 3) (Value.ofBigInt 2)
        (Value.ofBigInt 5) (Value.ofBigInt 4) ['u'] =
      Standard.CalcM eSeven (Value.ofBigInt 9) (Value.ofBigInt 3) (Value.ofBigInt 2)
        (Value.ofBigInt 6) (Value.ofBigInt 4) ['w'] :=
  c6_calcM_integer_sum eSeven (Value.ofBigInt 9) (Value.ofBigInt 3) (Value.ofBigInt 2)
    (Value.ofBigInt 5) (Value.ofBigInt 6) (Value.ofBigInt 4) ['u'] ['w']

/-- Claim C7, counterexample: on malformed hex the constructor's outcome is
`fatal` — the `log.Fatal` process abort. No `Value` is produced, but no
recoverable error value is returned to the caller either: the Go signature
`func New(arg interface{}) (value Value)` has no error result at all, and
the file defines no `ValueFormatError`. -/
theorem c7_error_counterexample :
    Value.New (NewArg.ofString ['0', 'z']) = NewResult.fatal ∧
    Value.New (NewArg.ofString ['a']) = NewResult.fatal ∧
    NewResult.fatal ≠ NewResult.ok vSample := by
  decide

/-- Claim C7, amended: every malformed hex string (odd length or an invalid
character) makes construction abort the process via `log.Fatal`; no Value
is produced and no error value reaches the caller. -/
theorem c7_fatal_amended (s : List Char)
    (h : s.length % 2 = 1 ∨ ∃ c ∈ s, hexCharVal c = none) :
    Value.New (NewArg.ofString s) = NewResult.fatal ∧
    ∀ val : Value, Value.New (NewArg.ofString s) ≠ NewResult.ok val := by
  have hdec : decodeHex s = none := decodeHex_none_of_malformed s h
  constructor
  · simp [Value.New, hdec]
  · intro val
    simp [Value.New, hdec]

/-- Claim C7, witness at the odd-length non-hex string "x". -/
theorem c7_fatal_witness :
    Value.New (NewArg.ofString ['x']) = NewResult.fatal ∧
    ∀ val : Value, Value.New (NewArg.ofString ['x']) ≠ NewResult.ok val :=
  c7_fatal_amended ['x'] (by decide)

/-- Claim C8, counterexample: constructing an Engine over the degenerate
group N = 0 does not fail — `engine.New` performs no validation and returns
a fully-formed Engine (its k is even computed), and the degenerate modulus
only surfaces at the first arithmetic operation: `CalcV(3)` returns
2^3 = 8 completely unreduced, because `big.Int.Exp` with a zero modulus
computes the plain power. There is no `ConfigurationError` (no such type
exists in the sources). -/
theorem c8_validation_counterexample :
    (Engine.New crHashTwo grpZero).N.int = 0 ∧
    (Engine.New crHashTwo grpZero).k = Value.ofBigInt 2 ∧
    ((Engine.New crHashTwo grpZero).CalcV (Value.ofBigInt 3)).int = 8 := by
  decide

/-- Claim C8, amended: `engine.New` accepts every group without any check —
it always returns the record with k = H(N, G) — and with N = 0 the failure
is deferred to the first arithmetic operation, where `CalcV` computes the
unreduced power G^x. -/
theorem c8_no_validation_amended (cr : Crypto) (grp : SrpGroup) (x : Value) :
    Engine.New cr grp =
      { crypto := cr, N := grp.N, G := grp.G, k := cr.H [grp.N, grp.G] } ∧
    (grp.N.int = 0 → ((Engine.New cr grp).CalcV x).int = grp.G.int ^ x.int) := by
  refine ⟨rfl, fun h => ?_⟩
  rw [Engine.CalcV, Engine.modExp_int]
  show expMod grp.G.int x.int grp.N.int = grp.G.int ^ x.int
  rw [h]
  simp [expMod]

/-- Claim C8, witness: the deferred-failure branch of the amended theorem
at the N = 0 group. -/
theorem c8_no_validation_witness :
    ((Engine.New crHashTwo grpZero).CalcV (Value.ofBigInt 3)).int =
      grpZero.G.int ^ (Value.ofBigInt 3).int :=
  (c8_no_validation_amended crHashTwo grpZero (Value.ofBigInt 3)).2 (by decide)

/-- Claim C9, counterexample: the "not yet computed" state is not tracked by
a computed flag — `K()` tests whether the cached k's hex encoding is empty.
For an Engine whose cached k is the zero Value (empty encoding) over crypto
whose digest is the constant 5, a cached value exists, yet `K()` recomputes
`H(N, G)` and returns 5, not the cached value. -/
theorem c9_cache_counterexample :
    eEmptyCachedK.k = Value.ofBigInt 0 ∧
    eEmptyCachedK.k.hex = [] ∧
    Engine.K eEmptyCachedK = Value.ofBigInt 5 ∧
    Engine.K eEmptyCachedK ≠ eEmptyCachedK.k := by
  decide

/-- Claim C9, amended: `K()` returns the cached k exactly when its hex
encoding is non-empty and recomputes `H(N, G)` when the encoding is empty
(there is no computed flag in the `Engine` struct); consequently, for every
Engine built by `engine.New`, `K()` returns `H(N, G)` whether or not the
recompute branch fires. -/
theorem c9_k_amended (e : Engine) (cr : Crypto) (grp : SrpGroup) :
    (e.k.hex ≠ [] → Engine.K e = e.k) ∧
    (e.k.hex = [] → Engine.K e = e.crypto.H [e.N, e.G]) ∧
    Engine.K (Engine.New cr grp) = cr.H [grp.N, grp.G] := by
  refine ⟨fun h => ?_, fun h => ?_, ?_⟩
  · rw [Engine.K, if_neg h]
  · rw [Engine.K, if_pos h]
  · rw [Engine.K]
    by_cases h : (Engine.New cr grp).k.hex = []
    · rw [if_pos h]
      rfl
    · rw [if_neg h]
      rfl

/-- Claim C9, witness: all three parts of the amended theorem at concrete
engines (non-empty cached encoding, empty cached encoding, New-built). -/
theorem c9_k_witness :
    Engine.K eSeven = eSeven.k ∧
    Engine.K eEmptyCachedK = eEmptyCachedK.crypto.H [eEmptyCachedK.N, eEmptyCachedK.G] ∧
    Engine.K (Engine.New crHashTwo grpSeven) = crHashTwo.H [grpSeven.N, grpSeven.G] :=
  ⟨(c9_k_amended eSeven crHashTwo grpSeven).1 (by decide),
   (c9_k_amended eEmptyCachedK crHashTwo grpSeven).2.1 (by decide),
   (c9_k_amended eSeven crHashTwo grpSeven).2.2⟩

/-- Claim C10: constructing a Value from the integer 0 yields the empty byte
sequence and the empty hex string (`big.Int.Bytes` of 0 is empty and `%x`
of the empty slice is the empty string), so a zero Value contributes zero
bytes to any hash input. -/
theorem c10_zero_empty_encoding :
    Value.New (NewArg.ofInt 0) = NewResult.ok { bytes := [], hex := [], int := 0 } ∧
    (Value.ofBigInt 0).bytes = [] ∧
    (Value.ofBigInt 0).hex = [] ∧
    (Value.ofBigInt 0).bytes.length = 0 := by
  decide
